import Mathlib

/-!
Shallow embedding of the core normalization logic of the `sl-cli` transit
client (journey normalizer, departure normalizer, transit-mode classifier,
stop-name resolver, origin resolution).

Conventions of the embedding:
* JavaScript `Date` values and timestamp strings are modelled as `Int`
  milliseconds since the epoch.  A raw JSON field that holds a timestamp
  string is modelled as `Option Int`: `none` stands for an absent field or
  an empty string (both are falsy in the JavaScript `||` chains that
  consume these fields before any `Date` parsing happens).
* Raw JSON string fields are modelled as `Option String`; `none` stands
  for an absent or non-string field.  Where the source uses `||` on a
  string (so that the empty string also falls through), the helper
  `jsOrStr` / `jsOrDefault` reproduces that behaviour.
* `Math.round(x / d)` for integer `x` and positive integer `d` is the
  floor of `x/d + 1/2`, i.e. `Int.fdiv (2*x + d) (2*d)` (`jsRound`).
-/

/-- Model of `Math.round(num / den)` for integers, `den > 0`: JavaScript rounds
half-up (towards positive infinity), i.e. `⌊num/den + 1/2⌋`. -/
def jsRound (num den : Int) : Int :=
  Int.fdiv (2 * num + den) (2 * den)

/-- JavaScript `a || b` on an optional string `a` (the empty string is
falsy and falls through to `b`). -/
def jsOrStr (a b : Option String) : Option String :=
  match a with
  | some s => if s = "" then b else some s
  | none => b

/-- JavaScript `a || d` on an optional string `a` with a plain string
default `d`. -/
def jsOrDefault (a : Option String) (d : String) : String :=
  match a with
  | some s => if s = "" then d else s
  | none => d

/-- Whether `pat` occurs as a contiguous run inside `s`
(JavaScript `String.prototype.includes` on the character lists). -/
def containsSub (pat : List Char) : List Char → Bool
  | [] => pat.isEmpty
  | c :: rest => pat.isPrefixOf (c :: rest) || containsSub pat rest

/-- JavaScript `s.includes(pat)`. -/
def strContains (s pat : String) : Bool :=
  containsSub pat.data s.data

/-- Test `/^\d+$/.test(s)` : `s` is non-empty and all characters are ASCII
digits. -/
def isNumericStr (s : String) : Bool :=
  !s.isEmpty && s.data.all Char.isDigit

/-- JavaScript `toUpperCase`, character-wise (ASCII; the inputs it is
applied to are controlled vocabulary). -/
def upperStr (s : String) : String :=
  String.mk (s.data.map Char.toUpper)

/-- JavaScript `toLowerCase`, character-wise (ASCII). -/
def lowerStr (s : String) : String :=
  String.mk (s.data.map Char.toLower)

/-- JavaScript `trim`: drop leading and trailing whitespace. -/
def trimStr (s : String) : String :=
  String.mk (((s.data.dropWhile Char.isWhitespace).reverse.dropWhile
    Char.isWhitespace).reverse)

/-! Section: Domain types (from the TypeScript type declarations) -/

/-- The `TripLeg["type"]` / `Departure["type"]` transport kinds.  The
departures feed never produces `walk`. -/
inductive TransportKind where
  | walk | metro | train | tram | bus | ship
deriving DecidableEq

/-- Type `TripLeg` from the journey-planner module. -/
structure TripLeg where
  type : TransportKind
  line : Option String
  direction : Option String
  departureTime : Int
  arrivalTime : Int
  durationSeconds : Int
  originName : String
  destinationName : String
  platform : Option String
deriving DecidableEq

/-- Type `TripProposal` from the journey-planner module. -/
structure TripProposal where
  departureTime : Int
  arrivalTime : Int
  durationMinutes : Int
  walkToFirstLegSeconds : Int
  legs : List TripLeg
  routeSummary : String
deriving DecidableEq

/-- Type `Departure` from the transport (departures) module. -/
structure Departure where
  type : TransportKind
  line : String
  destination : String
  scheduledTime : Int
  expectedTime : Int
  minutesUntil : Int
  isDelayed : Bool
  platform : Option String
  isCancelled : Bool
deriving DecidableEq

/-- Type `TransportSite` from the transport (departures) module. -/
structure TransportSite where
  id : String
  name : String
  coord : Option (Int × Int)
  products : List String
deriving DecidableEq

/-! Section: Transit-mode classifier (`mapTransportTypeV2`)

The source normalizes the product name with `normalize("NFD")` followed by
`replace(/[̀-ͯ]/g, "")` and `toUpperCase()`.  `nfdChar` models
Unicode NFD decomposition on the Latin-1 letters that occur in the feed
(identity on every other character); `isCombiningMark` models the
`[̀-ͯ]` range. -/

/-- NFD decomposition of a character, restricted to the precomposed
Latin-1 letters (identity elsewhere). -/
def nfdChar (c : Char) : List Char :=
  match c with
  | 'À' => ['A', '̀'] | 'Á' => ['A', '́'] | 'Â' => ['A', '̂']
  | 'Ã' => ['A', '̃'] | 'Ä' => ['A', '̈'] | 'Å' => ['A', '̊']
  | 'Ç' => ['C', '̧']
  | 'È' => ['E', '̀'] | 'É' => ['E', '́'] | 'Ê' => ['E', '̂']
  | 'Ë' => ['E', '̈']
  | 'Ì' => ['I', '̀'] | 'Í' => ['I', '́'] | 'Î' => ['I', '̂']
  | 'Ï' => ['I', '̈']
  | 'Ñ' => ['N', '̃']
  | 'Ò' => ['O', '̀'] | 'Ó' => ['O', '́'] | 'Ô' => ['O', '̂']
  | 'Õ' => ['O', '̃'] | 'Ö' => ['O', '̈']
  | 'Ù' => ['U', '̀'] | 'Ú' => ['U', '́'] | 'Û' => ['U', '̂']
  | 'Ü' => ['U', '̈']
  | 'Ý' => ['Y', '́']
  | 'à' => ['a', '̀'] | 'á' => ['a', '́'] | 'â' => ['a', '̂']
  | 'ã' => ['a', '̃'] | 'ä' => ['a', '̈'] | 'å' => ['a', '̊']
  | 'ç' => ['c', '̧']
  | 'è' => ['e', '̀'] | 'é' => ['e', '́'] | 'ê' => ['e', '̂']
  | 'ë' => ['e', '̈']
  | 'ì' => ['i', '̀'] | 'í' => ['i', '́'] | 'î' => ['i', '̂']
  | 'ï' => ['i', '̈']
  | 'ñ' => ['n', '̃']
  | 'ò' => ['o', '̀'] | 'ó' => ['o', '́'] | 'ô' => ['o', '̂']
  | 'õ' => ['o', '̃'] | 'ö' => ['o', '̈']
  | 'ù' => ['u', '̀'] | 'ú' => ['u', '́'] | 'û' => ['u', '̂']
  | 'ü' => ['u', '̈']
  | 'ý' => ['y', '́'] | 'ÿ' => ['y', '̈']
  | c => [c]

/-- The combining-diacritical range `[̀-ͯ]`. -/
def isCombiningMark (c : Char) : Bool :=
  0x300 ≤ c.val.toNat && c.val.toNat ≤ 0x36F

/-- Model of `productName.normalize("NFD").replace(/[̀-ͯ]/g, "").toUpperCase()`. -/
def normalizeUpper (s : String) : String :=
  String.mk ((((s.data.map nfdChar).flatten).filter
    (fun c => !isCombiningMark c)).map Char.toUpper)

/-- Function `mapTransportTypeV2` from the journey-planner module. -/
def mapTransportTypeV2 (productName : String) : TransportKind :=
  let upper := normalizeUpper productName
  if strContains upper "FOOTPATH" || strContains upper "FOOT" || strContains upper "WALK" then
    .walk
  else if strContains upper "TUNNELBANA" || strContains upper "METRO" then
    .metro
  else if strContains upper "PENDEL" || strContains upper "TAG" || strContains upper "TRAIN" then
    .train
  else if strContains upper "SPARV" || strContains upper "TRAM" then
    .tram
  else if strContains upper "BAT" || strContains upper "SHIP" || strContains upper "FERRY" then
    .ship
  else if strContains upper "BUS" then
    .bus
  else
    .bus

/-- Function `mapTransportMode` from the transport (departures) module. -/
def mapTransportMode (mode : String) : TransportKind :=
  let modeUpper := upperStr mode
  if modeUpper = "METRO" then .metro
  else if modeUpper = "TRAIN" || modeUpper = "COMMUTER_TRAIN" then .train
  else if modeUpper = "TRAM" then .tram
  else if modeUpper = "SHIP" || modeUpper = "FERRY" then .ship
  else .bus

/-! Section: Raw journey records (the JSON shapes read by `parseLegV2` /
`parseJourneyToTripProposal`) -/

/-- The `origin` record of a raw leg.  The two platform fields live under
`origin.properties` in the JSON; an absent `properties` object is modelled
by both being `none`. -/
structure RawLegOrigin where
  departureTimeEstimated : Option Int := none
  departureTimePlanned : Option Int := none
  departureTimeBaseTimetable : Option Int := none
  name : Option String := none
  platformName : Option String := none
  platform : Option String := none
deriving DecidableEq

/-- The `destination` record of a raw leg. -/
structure RawLegDestination where
  arrivalTimeEstimated : Option Int := none
  arrivalTimePlanned : Option Int := none
  arrivalTimeBaseTimetable : Option Int := none
  name : Option String := none
deriving DecidableEq

/-- The `transportation` record of a raw leg.  `productName` is
`transportation.product?.name`, `destinationName` is
`transportation.destination?.name`; an absent nested object is `none`. -/
structure RawTransportation where
  productName : Option String := none
  disassembledName : Option String := none
  number : Option String := none
  name : Option String := none
  destinationName : Option String := none
deriving DecidableEq

/-- One raw leg record of a journey. -/
structure RawLeg where
  origin : Option RawLegOrigin := none
  destination : Option RawLegDestination := none
  transportation : Option RawTransportation := none
  duration : Option Int := none
deriving DecidableEq

/-- A raw journey record: `legs` is `none` when the field is missing or
not an array; `tripDuration` is `none` when not a number. -/
structure RawJourney where
  legs : Option (List RawLeg) := none
  tripDuration : Option Int := none
deriving DecidableEq

/-- Function `parseLegV2` from the journey-planner module. -/
def parseLegV2 (rawLeg : RawLeg) : Option TripLeg :=
  match rawLeg.origin, rawLeg.destination, rawLeg.transportation with
  | some origin, some destination, some transportation =>
    match origin.departureTimeEstimated <|> origin.departureTimePlanned <|>
            origin.departureTimeBaseTimetable,
          destination.arrivalTimeEstimated <|> destination.arrivalTimePlanned <|>
            destination.arrivalTimeBaseTimetable with
    | some departureTime, some arrivalTime =>
      let durationSeconds :=
        match rawLeg.duration with
        | some d => d
        | none => max 0 (jsRound (arrivalTime - departureTime) 1000)
      let productName := jsOrDefault transportation.productName ""
      let type := mapTransportTypeV2 productName
      let line := jsOrStr transportation.disassembledName
        (jsOrStr transportation.number (jsOrStr transportation.name none))
      let direction := jsOrStr transportation.destinationName none
      let originName := jsOrDefault origin.name "Unknown"
      let destinationName := jsOrDefault destination.name "Unknown"
      let platform := jsOrStr origin.platformName (jsOrStr origin.platform none)
      some { type, line, direction, departureTime, arrivalTime,
             durationSeconds, originName, destinationName, platform }
    | _, _ => none
  | _, _, _ => none

/-! Section: Leg merging

The source walks the parsed legs with a mutable output array `legs`:
when the last element of `legs` and the current leg are both `walk`, the
last element is updated in place (its arrival time, accumulated duration
and destination name take the current leg's values); otherwise the
current leg is appended.  `mergeStep` is one loop iteration, `mergeLegs`
the whole loop. -/

/-- In-place update of the running walk leg by the next walk leg. -/
def mergeWalk (a b : TripLeg) : TripLeg :=
  { a with arrivalTime := b.arrivalTime,
           durationSeconds := a.durationSeconds + b.durationSeconds,
           destinationName := b.destinationName }

/-- One iteration of the merging loop. -/
def mergeStep (legs : List TripLeg) (leg : TripLeg) : List TripLeg :=
  match legs.getLast? with
  | some lastLeg =>
    if lastLeg.type = TransportKind.walk ∧ leg.type = TransportKind.walk then
      legs.dropLast ++ [mergeWalk lastLeg leg]
    else
      legs ++ [leg]
  | none => legs ++ [leg]

/-- The merging loop over all parsed legs. -/
def mergeLegs (legsRaw : List TripLeg) : List TripLeg :=
  legsRaw.foldl mergeStep []

/-- Recursive characterization of the merging loop: the running leg `a`
absorbs the following legs while both are walks. -/
def mergeInto (a : TripLeg) : List TripLeg → List TripLeg
  | [] => [a]
  | b :: rest =>
    if a.type = TransportKind.walk ∧ b.type = TransportKind.walk then
      mergeInto (mergeWalk a b) rest
    else
      a :: mergeInto b rest

/-- Merging an entire run of walk legs into its first leg. -/
def mergeRun (a : TripLeg) (rest : List TripLeg) : TripLeg :=
  rest.foldl mergeWalk a

/-- The string-literal value of a `TripLeg["type"]` (used by the
template string in `buildRouteSummary`). -/
def kindName : TransportKind → String
  | .walk => "walk" | .metro => "metro" | .train => "train"
  | .tram => "tram" | .bus => "bus" | .ship => "ship"

/-- Function `buildRouteSummary` from the journey-planner module.  `leg.line` is
truthy only when present and non-empty. -/
def buildRouteSummary (legs : List TripLeg) : String :=
  let transportLegs := legs.filter (fun leg => leg.type ≠ TransportKind.walk)
  if transportLegs = [] then
    "walk"
  else
    String.intercalate " -> " (transportLegs.map (fun leg =>
      kindName leg.type ++
        (match leg.line with
         | some l => if l = "" then "" else " " ++ l
         | none => "")))

/-- Function `parseJourneyToTripProposal` from the journey-planner module.  The
final `match` extracts the first and last merged leg; its `none` branch
is unreachable because the merged list of a non-empty list is non-empty
(the source indexes `legs[0]` / `legs[legs.length - 1]` directly). -/
def parseJourneyToTripProposal (journey : RawJourney) : Option TripProposal :=
  match journey.legs with
  | none => none
  | some rawLegs =>
    if rawLegs = [] then none
    else
      let legsRaw := rawLegs.filterMap parseLegV2
      if legsRaw = [] then none
      else
        let legs := mergeLegs legsRaw
        let walkToFirstLegSeconds :=
          match legs.findIdx? (fun leg => decide (leg.type ≠ TransportKind.walk)) with
          | none => (0 : Int)
          | some i => ((legs.take i).map TripLeg.durationSeconds).sum
        match legs.head?, legs.getLast? with
        | some firstLeg, some lastLeg =>
          let departureTime := firstLeg.departureTime
          let arrivalTime := lastLeg.arrivalTime
          let tripDurationSeconds :=
            match journey.tripDuration with
            | some d => d
            | none => max 0 (jsRound (arrivalTime - departureTime) 1000)
          let durationMinutes := max 0 (jsRound tripDurationSeconds 60)
          some { departureTime, arrivalTime, durationMinutes,
                 walkToFirstLegSeconds, legs,
                 routeSummary := buildRouteSummary legs }
        | _, _ => none

/-- Function `parseTripsResponse` from the journey-planner module; `none` models a
payload whose `journeys` field is missing or not an array. -/
def parseTripsResponse (journeys : Option (List RawJourney)) : List TripProposal :=
  match journeys with
  | none => []
  | some js => js.filterMap parseJourneyToTripProposal

/-! Section: Departures normalizer (`parseDeparture` / `parseDeparturesResponse`)

The `now` that the source captures once with `new Date()` at the start of
`parseDeparturesResponse` is a parameter of the embedding. -/

/-- One raw departure record.  `scheduled`/`expected` are the millisecond
values of the timestamp strings (`none` = absent or empty string);
`lineDesignation`/`lineTransportMode` are `raw.line?.designation` /
`raw.line?.transport_mode`, `stopPointDesignation` is
`raw.stop_point?.designation` (each `none` when the field is absent or
not a string). -/
structure RawDeparture where
  scheduled : Option Int := none
  expected : Option Int := none
  lineDesignation : Option String := none
  lineTransportMode : Option String := none
  destination : Option String := none
  stopPointDesignation : Option String := none
  state : Option String := none
deriving DecidableEq

/-- Function `parseDeparture` from the transport (departures) module. -/
def parseDeparture (raw : RawDeparture) (now : Int) : Option Departure :=
  match raw.scheduled with
  | none => none
  | some scheduledTime =>
    let expectedTime := raw.expected.getD scheduledTime
    let minutesUntil := jsRound (expectedTime - now) 60000
    if minutesUntil < -1 then none
    else
      let lineDesignation := raw.lineDesignation.getD ""
      let transportMode := raw.lineTransportMode.getD ""
      let destination := raw.destination.getD ""
      let platform := raw.stopPointDesignation
      let state := upperStr (raw.state.getD "")
      let isCancelled := state = "CANCELLED" || state = "REPLACED"
      let isDelayed := decide (expectedTime - scheduledTime > 60000)
      some { type := mapTransportMode transportMode,
             line := lineDesignation,
             destination,
             scheduledTime,
             expectedTime,
             minutesUntil := max 0 minutesUntil,
             isDelayed,
             platform,
             isCancelled }

/-- Comparator of the final sort: ascending by expected time (the source
sorts with `a.expectedTime.getTime() - b.expectedTime.getTime()`, a
stable sort in Node). -/
def depLE (a b : Departure) : Bool :=
  a.expectedTime ≤ b.expectedTime

/-- Function `parseDeparturesResponse` from the transport (departures) module;
`none` models a payload whose `departures` field is missing or not an
array. -/
def parseDeparturesResponse (departuresData : Option (List RawDeparture))
    (now : Int) : List Departure :=
  match departuresData with
  | none => []
  | some deps =>
    (((deps.filterMap (fun dep => parseDeparture dep now)).mergeSort depLE).take 30)

/-! Section: Stop-name resolver (the `--stop` branch of `resolveSite`) -/

/-- The pure matching core of `resolveSite` for a textual/numeric stop
query (the site list is the fetched `sites`; the `--near` branch is the
nearest-stop resolver, not modelled here). -/
def resolveStopQuery (sites : List TransportSite) (stopInput : String) :
    Option TransportSite :=
  let trimmed := trimStr stopInput
  if isNumericStr trimmed then
    match sites.find? (fun site => site.id = trimmed) with
    | some m => some m
    | none => some { id := trimmed, name := trimmed, coord := none, products := [] }
  else
    let normalizedQuery := lowerStr trimmed
    let matchList := sites.filter (fun site => strContains (lowerStr site.name) normalizedQuery)
    if matchList = [] then none
    else
      match matchList.find? (fun site => lowerStr site.name = normalizedQuery) with
      | some exact => some exact
      | none =>
        match matchList.find? (fun site => normalizedQuery.data.isPrefixOf (lowerStr site.name).data) with
        | some pfx => some pfx
        | none => matchList.head?

/-! Section: Origin resolution (`resolveOrigin` from the config module)

The environment variable `SLCLI_ORIGIN` and the config file's `origin`
key are external inputs; the embedding takes them as parameters. -/

/-- Function `resolveOrigin`: CLI value, then `SLCLI_ORIGIN`, then config
`origin`; a value is used only when truthy and with non-blank trim. -/
def resolveOrigin (cliValue envOrigin configOrigin : Option String) :
    Option String :=
  match cliValue with
  | some v =>
    if v ≠ "" ∧ trimStr v ≠ "" then some (trimStr v)
    else
      match envOrigin with
      | some e =>
        if e ≠ "" ∧ trimStr e ≠ "" then some (trimStr e)
        else
          match configOrigin with
          | some c => if c ≠ "" ∧ trimStr c ≠ "" then some (trimStr c) else none
          | none => none
      | none =>
        match configOrigin with
        | some c => if c ≠ "" ∧ trimStr c ≠ "" then some (trimStr c) else none
        | none => none
  | none =>
    match envOrigin with
    | some e =>
      if e ≠ "" ∧ trimStr e ≠ "" then some (trimStr e)
      else
        match configOrigin with
        | some c => if c ≠ "" ∧ trimStr c ≠ "" then some (trimStr c) else none
        | none => none
    | none =>
      match configOrigin with
      | some c => if c ≠ "" ∧ trimStr c ≠ "" then some (trimStr c) else none
      | none => none

/-! Section: Spec-side definitions (written from the specification's words, for
the refinement claims) -/

/-- The classifier table as the specification words it: substring tests
in priority order, first match wins, default `bus`. -/
def specClassifierRules : List (List String × TransportKind) :=
  [(["FOOTPATH", "FOOT", "WALK"], .walk),
   (["TUNNELBANA", "METRO"], .metro),
   (["PENDEL", "TAG", "TRAIN"], .train),
   (["SPARV", "TRAM"], .tram),
   (["BAT", "SHIP", "FERRY"], .ship),
   (["BUS"], .bus)]

/-- The mode classifier as the specification describes it: normalize,
then take the kind of the first rule one of whose tokens occurs in the
normalized string; `bus` when no rule matches. -/
def classifySpec (s : String) : TransportKind :=
  let u := normalizeUpper s
  match specClassifierRules.find? (fun rule => rule.1.any (fun tok => strContains u tok)) with
  | some rule => rule.2
  | none => .bus

/-- The origin-resolution policy as described: the first of the candidate
values (in precedence order) whose trim is non-blank, each returned
trimmed. -/
def firstNonBlank (vals : List (Option String)) : Option String :=
  ((vals.filterMap id).map trimStr).find? (fun s => s ≠ "")

/-! Section: Concrete witness data -/

def wRawWalk1 : RawLeg :=
  { origin := some { departureTimePlanned := some 0, name := some "A" },
    destination := some { arrivalTimePlanned := some 300000, name := some "B" },
    transportation := some { productName := some "Footpath" },
    duration := some 300 }

def wRawWalk2 : RawLeg :=
  { origin := some { departureTimePlanned := some 300000, name := some "B" },
    destination := some { arrivalTimePlanned := some 360000, name := some "C" },
    transportation := some { productName := some "Footpath" },
    duration := some 60 }

def wRawBus : RawLeg :=
  { origin := some { departureTimePlanned := some 400000, name := some "C",
                     platformName := some "2" },
    destination := some { arrivalTimePlanned := some 1000000, name := some "D" },
    transportation := some { productName := some "Buss",
                             disassembledName := some "4" },
    duration := some 600 }

def wJourney : RawJourney :=
  { legs := some [wRawWalk1, wRawWalk2, wRawBus], tripDuration := some 1000 }

def wWalk1 : TripLeg :=
  { type := .walk, line := none, direction := none, departureTime := 0,
    arrivalTime := 300000, durationSeconds := 300, originName := "A",
    destinationName := "B", platform := none }

def wWalk2 : TripLeg :=
  { type := .walk, line := none, direction := none, departureTime := 300000,
    arrivalTime := 360000, durationSeconds := 60, originName := "B",
    destinationName := "C", platform := none }

def wBus : TripLeg :=
  { type := .bus, line := some "4", direction := none, departureTime := 400000,
    arrivalTime := 1000000, durationSeconds := 600, originName := "C",
    destinationName := "D", platform := some "2" }

def wMergedWalk : TripLeg :=
  { type := .walk, line := none, direction := none, departureTime := 0,
    arrivalTime := 360000, durationSeconds := 360, originName := "A",
    destinationName := "C", platform := none }

def wProposal : TripProposal :=
  { departureTime := 0, arrivalTime := 1000000, durationMinutes := 17,
    walkToFirstLegSeconds := 360, legs := [wMergedWalk, wBus],
    routeSummary := "bus 4" }

/-- A departure record 61 seconds in the past relative to `now`. -/
def staleRaw : RawDeparture := { scheduled := some 0 }

def wSite : TransportSite :=
  { id := "1234", name := "Slussen", coord := none, products := [] }

def wRawDelayed : RawDeparture := { scheduled := some 0, expected := some 120000 }

def wDelayed : Departure :=
  { type := TransportKind.bus, line := "", destination := "",
    scheduledTime := 0, expectedTime := 120000, minutesUntil := 2,
    isDelayed := true, platform := none, isCancelled := false }

def wRawNoExpected : RawDeparture := { scheduled := some 60000 }

def wNoExpected : Departure :=
  { type := TransportKind.bus, line := "", destination := "",
    scheduledTime := 60000, expectedTime := 60000, minutesUntil := 1,
    isDelayed := false, platform := none, isCancelled := false }

/-! Section: Properties of the leg-merging loop -/

/-- Function `mergeWalk` leaves every field except `arrivalTime`,
`durationSeconds` and `destinationName` unchanged. -/
theorem mergeWalk_frame (a b : TripLeg) :
    (mergeWalk a b).type = a.type ∧ (mergeWalk a b).line = a.line ∧
    (mergeWalk a b).direction = a.direction ∧
    (mergeWalk a b).departureTime = a.departureTime ∧
    (mergeWalk a b).originName = a.originName ∧
    (mergeWalk a b).platform = a.platform := by
  simp [mergeWalk]

/-- Folding the merging loop from an accumulator with last element `a`
is absorbing the rest into `a`. -/
theorem foldl_mergeStep_concat (xs : List TripLeg) :
    ∀ (ys : List TripLeg) (a : TripLeg),
      List.foldl mergeStep (ys ++ [a]) xs = ys ++ mergeInto a xs := by
  induction xs with
  | nil => intro ys a; simp [mergeInto]
  | cons x xs ih =>
    intro ys a
    rw [List.foldl_cons]
    by_cases h : a.type = TransportKind.walk ∧ x.type = TransportKind.walk
    · have hstep : mergeStep (ys ++ [a]) x = ys ++ [mergeWalk a x] := by
        simp [mergeStep, List.getLast?_concat, List.dropLast_concat, h]
      rw [hstep, ih ys (mergeWalk a x), mergeInto, if_pos h]
    · have hstep : mergeStep (ys ++ [a]) x = (ys ++ [a]) ++ [x] := by
        simp [mergeStep, List.getLast?_concat, h]
      rw [hstep, ih (ys ++ [a]) x, mergeInto, if_neg h]
      simp

/-- The merging loop on a non-empty list absorbs the tail into the
head. -/
theorem mergeLegs_cons (a : TripLeg) (xs : List TripLeg) :
    mergeLegs (a :: xs) = mergeInto a xs := by
  have := foldl_mergeStep_concat xs [] a
  simpa [mergeLegs] using this

/-- Merging never empties a non-empty list. -/
theorem mergeInto_ne_nil (a : TripLeg) (xs : List TripLeg) :
    mergeInto a xs ≠ [] := by
  induction xs generalizing a with
  | nil => simp [mergeInto]
  | cons b rest ih =>
    rw [mergeInto]
    by_cases h : a.type = TransportKind.walk ∧ b.type = TransportKind.walk
    · rw [if_pos h]; exact ih _
    · rw [if_neg h]; simp

/-- The first merged leg has the type of the first input leg. -/
theorem mergeInto_head_type (xs : List TripLeg) :
    ∀ a : TripLeg, (mergeInto a xs).head?.map TripLeg.type = some a.type := by
  induction xs with
  | nil => intro a; simp [mergeInto]
  | cons b rest ih =>
    intro a
    rw [mergeInto]
    by_cases h : a.type = TransportKind.walk ∧ b.type = TransportKind.walk
    · rw [if_pos h, ih (mergeWalk a b)]
      simp [mergeWalk]
    · rw [if_neg h]; simp

/-- No two adjacent merged legs are both walks. -/
theorem mergeInto_chain' (xs : List TripLeg) :
    ∀ a : TripLeg,
      List.Chain' (fun x y : TripLeg =>
        ¬(x.type = TransportKind.walk ∧ y.type = TransportKind.walk))
        (mergeInto a xs) := by
  induction xs with
  | nil => intro a; simp [mergeInto]
  | cons b rest ih =>
    intro a
    rw [mergeInto]
    by_cases h : a.type = TransportKind.walk ∧ b.type = TransportKind.walk
    · rw [if_pos h]; exact ih _
    · rw [if_neg h]
      rw [List.chain'_cons']
      refine ⟨?_, ih b⟩
      intro y hy
      have hhead := mergeInto_head_type rest b
      intro hcontra
      cases hmem : (mergeInto b rest).head? with
      | none => rw [hmem] at hy; simp at hy
      | some z =>
        rw [hmem] at hy hhead
        simp at hy hhead
        subst hy
        exact h ⟨hcontra.1, hhead ▸ hcontra.2⟩

/-- Splitting the merge at a non-walk boundary: if the list up to and
including `a :: ps` ends in a non-walk leg, merging `(a :: ps) ++ ys`
is merging the two parts independently. -/
theorem mergeInto_append (ps : List TripLeg) :
    ∀ (a : TripLeg) (ys : List TripLeg),
      (∀ l, (a :: ps).getLast? = some l → l.type ≠ TransportKind.walk) →
      mergeInto a (ps ++ ys) = mergeInto a ps ++ mergeLegs ys := by
  induction ps with
  | nil =>
    intro a ys hlast
    have ha : a.type ≠ TransportKind.walk := hlast a rfl
    cases ys with
    | nil => simp [mergeInto, mergeLegs]
    | cons y ys' =>
      have hng : ¬(a.type = TransportKind.walk ∧ y.type = TransportKind.walk) :=
        fun hc => ha hc.1
      rw [List.nil_append, mergeInto, mergeInto, if_neg hng, mergeLegs_cons]
      simp
  | cons b bs ih =>
    intro a ys hlast
    rw [List.cons_append, mergeInto]
    by_cases h : a.type = TransportKind.walk ∧ b.type = TransportKind.walk
    · rw [if_pos h]
      cases bs with
      | nil =>
        exfalso
        exact hlast b (by simp) h.2
      | cons c cs =>
        have hlast' : ∀ l, (mergeWalk a b :: c :: cs).getLast? = some l →
            l.type ≠ TransportKind.walk := by
          intro l hl
          apply hlast l
          rw [List.getLast?_cons_cons] at hl ⊢
          rw [List.getLast?_cons_cons]
          exact hl
        rw [ih (mergeWalk a b) ys hlast']
        conv_rhs => rw [mergeInto, if_pos h]
    · rw [if_neg h]
      have hlast' : ∀ l, (b :: bs).getLast? = some l →
          l.type ≠ TransportKind.walk := by
        intro l hl
        apply hlast l
        rw [List.getLast?_cons_cons]
        exact hl
      rw [ih b ys hlast']
      rw [mergeInto, if_neg h]
      simp

/-- Merging a run of walk legs followed by a non-walk boundary collapses
the run into a single leg. -/
theorem mergeInto_walk_run (rrest : List TripLeg) :
    ∀ (r0 : TripLeg) (post : List TripLeg),
      r0.type = TransportKind.walk →
      (∀ l ∈ rrest, l.type = TransportKind.walk) →
      (∀ l, post.head? = some l → l.type ≠ TransportKind.walk) →
      mergeInto r0 (rrest ++ post) = mergeRun r0 rrest :: mergeLegs post := by
  induction rrest with
  | nil =>
    intro r0 post h0 _ hpost
    cases post with
    | nil => simp [mergeInto, mergeRun, mergeLegs]
    | cons p ps =>
      have hp : p.type ≠ TransportKind.walk := hpost p rfl
      rw [List.nil_append, mergeInto, if_neg (fun hc => hp hc.2),
        mergeLegs_cons]
      simp [mergeRun]
  | cons b bs ih =>
    intro r0 post h0 hrun hpost
    rw [List.cons_append, mergeInto,
      if_pos ⟨h0, hrun b (by simp)⟩]
    have hmw : (mergeWalk r0 b).type = TransportKind.walk := by
      simpa [mergeWalk] using h0
    rw [ih (mergeWalk r0 b) post hmw (fun l hl => hrun l (by simp [hl])) hpost]
    rfl

/-- The frame of a merged run: every field except the three updated ones
comes from the first leg. -/
theorem mergeRun_frame (xs : List TripLeg) :
    ∀ a : TripLeg,
      (mergeRun a xs).type = a.type ∧ (mergeRun a xs).line = a.line ∧
      (mergeRun a xs).direction = a.direction ∧
      (mergeRun a xs).departureTime = a.departureTime ∧
      (mergeRun a xs).originName = a.originName ∧
      (mergeRun a xs).platform = a.platform := by
  induction xs with
  | nil => intro a; simp [mergeRun]
  | cons b bs ih =>
    intro a
    have h := ih (mergeWalk a b)
    simpa [mergeRun, mergeWalk, List.foldl_cons] using h

/-- The duration of a merged run is the sum of the run's durations. -/
theorem mergeRun_durationSeconds (xs : List TripLeg) :
    ∀ a : TripLeg,
      (mergeRun a xs).durationSeconds =
        a.durationSeconds + (xs.map TripLeg.durationSeconds).sum := by
  induction xs with
  | nil => intro a; simp [mergeRun]
  | cons b bs ih =>
    intro a
    have h := ih (mergeWalk a b)
    rw [mergeRun, List.foldl_cons] at *
    rw [h]
    simp [mergeWalk, mergeRun]
    ring

/-- The arrival time of a merged run is the last leg's. -/
theorem mergeRun_arrivalTime (xs : List TripLeg) :
    ∀ a : TripLeg,
      (mergeRun a xs).arrivalTime = (xs.getLast?.getD a).arrivalTime := by
  induction xs with
  | nil => intro a; simp [mergeRun]
  | cons b bs ih =>
    intro a
    have h := ih (mergeWalk a b)
    rw [mergeRun, List.foldl_cons]
    rw [show List.foldl mergeWalk (mergeWalk a b) bs = mergeRun (mergeWalk a b) bs from rfl] at *
    rw [h]
    cases bs with
    | nil => simp [mergeWalk]
    | cons c cs =>
      rw [List.getLast?_cons_cons,
        List.getLast?_eq_getLast (c :: cs) (by simp)]
      simp

/-- The destination name of a merged run is the last leg's. -/
theorem mergeRun_destinationName (xs : List TripLeg) :
    ∀ a : TripLeg,
      (mergeRun a xs).destinationName = (xs.getLast?.getD a).destinationName := by
  induction xs with
  | nil => intro a; simp [mergeRun]
  | cons b bs ih =>
    intro a
    have h := ih (mergeWalk a b)
    rw [mergeRun, List.foldl_cons]
    rw [show List.foldl mergeWalk (mergeWalk a b) bs = mergeRun (mergeWalk a b) bs from rfl] at *
    rw [h]
    cases bs with
    | nil => simp [mergeWalk]
    | cons c cs =>
      rw [List.getLast?_cons_cons,
        List.getLast?_eq_getLast (c :: cs) (by simp)]
      simp

/-- If the journey's raw legs parse to a non-empty list, the normalizer
succeeds and the proposal's legs are the merged parsed legs. -/
theorem parseJourney_some (j : RawJourney) (rls : List RawLeg)
    (l0 : TripLeg) (lt : List TripLeg)
    (hlegs : j.legs = some rls)
    (hparse : rls.filterMap parseLegV2 = l0 :: lt) :
    ∃ p, parseJourneyToTripProposal j = some p ∧ p.legs = mergeInto l0 lt := by
  have hrls : rls ≠ [] := by
    intro hcon
    rw [hcon] at hparse
    simp at hparse
  obtain ⟨h0, t, hlt⟩ : ∃ h0 t, mergeInto l0 lt = h0 :: t := by
    cases hm : mergeInto l0 lt with
    | nil => exact absurd hm (mergeInto_ne_nil _ _)
    | cons h0 t => exact ⟨h0, t, rfl⟩
  simp only [parseJourneyToTripProposal, hlegs]
  rw [if_neg hrls, hparse]
  rw [if_neg (List.cons_ne_nil l0 lt)]
  rw [mergeLegs_cons, hlt]
  simp only [List.head?_cons, List.getLast?_eq_getLast (h0 :: t) (List.cons_ne_nil h0 t)]
  exact ⟨_, rfl, rfl⟩

/-- Inversion: any proposal the normalizer produces has, as its legs,
the merged parsed legs of the journey. -/
theorem parseJourney_legs_inv (j : RawJourney) (p : TripProposal)
    (h : parseJourneyToTripProposal j = some p) :
    ∃ rls l0 lt, j.legs = some rls ∧ rls.filterMap parseLegV2 = l0 :: lt ∧
      p.legs = mergeInto l0 lt := by
  cases hlegs : j.legs with
  | none =>
    rw [parseJourneyToTripProposal, hlegs] at h
    simp at h
  | some rls =>
    by_cases hrls : rls = []
    · rw [hrls] at hlegs
      simp only [parseJourneyToTripProposal, hlegs] at h
      simp at h
    · cases hparse : rls.filterMap parseLegV2 with
      | nil =>
        simp only [parseJourneyToTripProposal, hlegs] at h
        rw [if_neg hrls, hparse] at h
        simp at h
      | cons l0 lt =>
        obtain ⟨q, hq, hql⟩ := parseJourney_some j rls l0 lt hlegs hparse
        rw [h] at hq
        refine ⟨rls, l0, lt, rfl, hparse, ?_⟩
        rw [← hql]
        injection hq with hq'
        rw [hq']

/-- Merging a decomposition `pre ++ run ++ post` around a maximal walk
run collapses the run and leaves the two sides independent. -/
theorem mergeLegs_split (pre post rrest : List TripLeg) (r0 r1 : TripLeg)
    (hrun : ∀ l ∈ r0 :: r1 :: rrest, l.type = TransportKind.walk)
    (hpre : ∀ l, pre.getLast? = some l → l.type ≠ TransportKind.walk)
    (hpost : ∀ l, post.head? = some l → l.type ≠ TransportKind.walk) :
    mergeLegs (pre ++ (r0 :: r1 :: rrest) ++ post) =
      mergeLegs pre ++ mergeRun r0 (r1 :: rrest) :: mergeLegs post := by
  have hwr : mergeInto r0 ((r1 :: rrest) ++ post) =
      mergeRun r0 (r1 :: rrest) :: mergeLegs post :=
    mergeInto_walk_run (r1 :: rrest) r0 post (hrun r0 (by simp))
      (fun l hl => hrun l (by simp [hl])) hpost
  rw [List.append_assoc]
  cases pre with
  | nil =>
    rw [List.nil_append]
    rw [show (r0 :: r1 :: rrest) ++ post = r0 :: ((r1 :: rrest) ++ post) from rfl]
    rw [mergeLegs_cons, hwr]
    simp [mergeLegs]
  | cons a ps =>
    rw [List.cons_append, mergeLegs_cons]
    rw [mergeInto_append ps a ((r0 :: r1 :: rrest) ++ post) hpre]
    rw [show (r0 :: r1 :: rrest) ++ post = r0 :: ((r1 :: rrest) ++ post) from rfl]
    rw [mergeLegs_cons, hwr, mergeLegs_cons]

/-- C1, journey level.  The run `r0 :: r1 :: rrest` is a maximal run of
two or more consecutive walk legs in the parsed legs. -/
theorem journey_walk_run_merged (j : RawJourney) (rls : List RawLeg)
    (pre post rrest : List TripLeg) (r0 r1 : TripLeg)
    (hlegs : j.legs = some rls)
    (hparse : rls.filterMap parseLegV2 = pre ++ (r0 :: r1 :: rrest) ++ post)
    (hrun : ∀ l ∈ r0 :: r1 :: rrest, l.type = TransportKind.walk)
    (hpre : ∀ l, pre.getLast? = some l → l.type ≠ TransportKind.walk)
    (hpost : ∀ l, post.head? = some l → l.type ≠ TransportKind.walk) :
    ∃ p, parseJourneyToTripProposal j = some p ∧
      p.legs = mergeLegs pre ++ mergeRun r0 (r1 :: rrest) :: mergeLegs post ∧
      (mergeRun r0 (r1 :: rrest)).type = TransportKind.walk ∧
      (mergeRun r0 (r1 :: rrest)).durationSeconds =
        ((r0 :: r1 :: rrest).map TripLeg.durationSeconds).sum ∧
      (mergeRun r0 (r1 :: rrest)).arrivalTime =
        ((r0 :: r1 :: rrest).getLast (List.cons_ne_nil r0 (r1 :: rrest))).arrivalTime ∧
      (mergeRun r0 (r1 :: rrest)).destinationName =
        ((r0 :: r1 :: rrest).getLast (List.cons_ne_nil r0 (r1 :: rrest))).destinationName := by
  have hsplit := mergeLegs_split pre post rrest r0 r1 hrun hpre hpost
  obtain ⟨l0, lt, hshape⟩ :
      ∃ l0 lt, pre ++ (r0 :: r1 :: rrest) ++ post = l0 :: lt := by
    cases hs : pre ++ (r0 :: r1 :: rrest) ++ post with
    | nil => rw [List.append_assoc] at hs; cases pre <;> simp at hs
    | cons l0 lt => exact ⟨l0, lt, rfl⟩
  obtain ⟨p, hp, hpl⟩ :=
    parseJourney_some j rls l0 lt hlegs (hparse.trans hshape)
  refine ⟨p, hp, ?_, ?_, ?_, ?_, ?_⟩
  · rw [hpl, ← mergeLegs_cons, ← hshape, hsplit]
  · rw [(mergeRun_frame (r1 :: rrest) r0).1]
    exact hrun r0 (by simp)
  · rw [mergeRun_durationSeconds (r1 :: rrest) r0]
    simp
  · rw [mergeRun_arrivalTime (r1 :: rrest) r0]
    rw [List.getLast?_eq_getLast (r1 :: rrest) (List.cons_ne_nil r1 rrest)]
    rw [List.getLast_cons (List.cons_ne_nil r1 rrest)]
    rfl
  · rw [mergeRun_destinationName (r1 :: rrest) r0]
    rw [List.getLast?_eq_getLast (r1 :: rrest) (List.cons_ne_nil r1 rrest)]
    rw [List.getLast_cons (List.cons_ne_nil r1 rrest)]
    rfl

/-- C8, journey level: the merged run keeps the first run leg's
remaining fields. -/
theorem journey_walk_run_frame (j : RawJourney) (rls : List RawLeg)
    (pre post rrest : List TripLeg) (r0 r1 : TripLeg)
    (hlegs : j.legs = some rls)
    (hparse : rls.filterMap parseLegV2 = pre ++ (r0 :: r1 :: rrest) ++ post)
    (hrun : ∀ l ∈ r0 :: r1 :: rrest, l.type = TransportKind.walk)
    (hpre : ∀ l, pre.getLast? = some l → l.type ≠ TransportKind.walk)
    (hpost : ∀ l, post.head? = some l → l.type ≠ TransportKind.walk) :
    ∃ p, parseJourneyToTripProposal j = some p ∧
      p.legs = mergeLegs pre ++ mergeRun r0 (r1 :: rrest) :: mergeLegs post ∧
      (mergeRun r0 (r1 :: rrest)).departureTime = r0.departureTime ∧
      (mergeRun r0 (r1 :: rrest)).originName = r0.originName ∧
      (mergeRun r0 (r1 :: rrest)).type = r0.type ∧
      (mergeRun r0 (r1 :: rrest)).line = r0.line ∧
      (mergeRun r0 (r1 :: rrest)).direction = r0.direction ∧
      (mergeRun r0 (r1 :: rrest)).platform = r0.platform := by
  have hsplit := mergeLegs_split pre post rrest r0 r1 hrun hpre hpost
  obtain ⟨l0, lt, hshape⟩ :
      ∃ l0 lt, pre ++ (r0 :: r1 :: rrest) ++ post = l0 :: lt := by
    cases hs : pre ++ (r0 :: r1 :: rrest) ++ post with
    | nil => rw [List.append_assoc] at hs; cases pre <;> simp at hs
    | cons l0 lt => exact ⟨l0, lt, rfl⟩
  obtain ⟨p, hp, hpl⟩ :=
    parseJourney_some j rls l0 lt hlegs (hparse.trans hshape)
  have hf := mergeRun_frame (r1 :: rrest) r0
  exact ⟨p, hp, by rw [hpl, ← mergeLegs_cons, ← hshape, hsplit],
    hf.2.2.2.1, hf.2.2.2.2.1, hf.1, hf.2.1, hf.2.2.1, hf.2.2.2.2.2⟩

/-- C7: the legs of any produced proposal are non-empty with no two
adjacent walk legs. -/
theorem trip_legs_invariant (j : RawJourney) (p : TripProposal)
    (h : parseJourneyToTripProposal j = some p) :
    p.legs ≠ [] ∧
      List.Chain' (fun a b : TripLeg =>
        ¬(a.type = TransportKind.walk ∧ b.type = TransportKind.walk)) p.legs := by
  obtain ⟨rls, l0, lt, _, _, hpl⟩ := parseJourney_legs_inv j p h
  rw [hpl]
  exact ⟨mergeInto_ne_nil l0 lt, mergeInto_chain' lt l0⟩

theorem journey_walk_run_merged_witness :
    ∃ p, parseJourneyToTripProposal wJourney = some p ∧
      p.legs = mergeLegs [] ++ mergeRun wWalk1 [wWalk2] :: mergeLegs [wBus] ∧
      (mergeRun wWalk1 [wWalk2]).type = TransportKind.walk ∧
      (mergeRun wWalk1 [wWalk2]).durationSeconds =
        ([wWalk1, wWalk2].map TripLeg.durationSeconds).sum ∧
      (mergeRun wWalk1 [wWalk2]).arrivalTime =
        ([wWalk1, wWalk2].getLast (List.cons_ne_nil wWalk1 [wWalk2])).arrivalTime ∧
      (mergeRun wWalk1 [wWalk2]).destinationName =
        ([wWalk1, wWalk2].getLast (List.cons_ne_nil wWalk1 [wWalk2])).destinationName :=
  journey_walk_run_merged wJourney [wRawWalk1, wRawWalk2, wRawBus]
    [] [wBus] [] wWalk1 wWalk2 rfl (by decide) (by decide)
    (fun l hl => by simp at hl)
    (fun l hl => by simp at hl; subst hl; decide)

theorem journey_walk_run_frame_witness :
    ∃ p, parseJourneyToTripProposal wJourney = some p ∧
      p.legs = mergeLegs [] ++ mergeRun wWalk1 [wWalk2] :: mergeLegs [wBus] ∧
      (mergeRun wWalk1 [wWalk2]).departureTime = wWalk1.departureTime ∧
      (mergeRun wWalk1 [wWalk2]).originName = wWalk1.originName ∧
      (mergeRun wWalk1 [wWalk2]).type = wWalk1.type ∧
      (mergeRun wWalk1 [wWalk2]).line = wWalk1.line ∧
      (mergeRun wWalk1 [wWalk2]).direction = wWalk1.direction ∧
      (mergeRun wWalk1 [wWalk2]).platform = wWalk1.platform :=
  journey_walk_run_frame wJourney [wRawWalk1, wRawWalk2, wRawBus]
    [] [wBus] [] wWalk1 wWalk2 rfl (by decide) (by decide)
    (fun l hl => by simp at hl)
    (fun l hl => by simp at hl; subst hl; decide)

theorem trip_legs_invariant_witness :
    wProposal.legs ≠ [] ∧
      List.Chain' (fun a b : TripLeg =>
        ¬(a.type = TransportKind.walk ∧ b.type = TransportKind.walk))
        wProposal.legs :=
  trip_legs_invariant wJourney wProposal (by decide)

/-! Section: Properties of the departure normalizer -/

/-- Inversion of `parseDeparture`: the shape of any produced record. -/
theorem parseDeparture_some_inv (raw : RawDeparture) (now : Int)
    (d : Departure) (h : parseDeparture raw now = some d) :
    ∃ s, raw.scheduled = some s ∧
      d.scheduledTime = s ∧
      d.expectedTime = raw.expected.getD s ∧
      ¬ jsRound (d.expectedTime - now) 60000 < -1 ∧
      d.minutesUntil = max 0 (jsRound (d.expectedTime - now) 60000) ∧
      d.isDelayed = decide (d.expectedTime - d.scheduledTime > 60000) := by
  cases hs : raw.scheduled with
  | none => rw [parseDeparture, hs] at h; simp at h
  | some s =>
    refine ⟨s, rfl, ?_⟩
    simp only [parseDeparture, hs] at h
    by_cases hstale : jsRound (raw.expected.getD s - now) 60000 < -1
    · rw [if_pos hstale] at h
      simp at h
    · rw [if_neg hstale] at h
      injection h with h'
      subst h'
      exact ⟨rfl, rfl, hstale, rfl, rfl⟩

/-- C2: the departures output is sorted by expected time, capped at 30,
and every entry's minutes-until is non-negative. -/
theorem departures_sorted_capped_nonneg
    (departuresData : Option (List RawDeparture)) (now : Int) :
    List.Sorted (fun a b : Departure => a.expectedTime ≤ b.expectedTime)
        (parseDeparturesResponse departuresData now) ∧
      (parseDeparturesResponse departuresData now).length ≤ 30 ∧
      ∀ d ∈ parseDeparturesResponse departuresData now, 0 ≤ d.minutesUntil := by
  cases departuresData with
  | none =>
    refine ⟨?_, ?_, ?_⟩ <;> simp [parseDeparturesResponse, List.Sorted]
  | some deps =>
    have hsorted :
        List.Pairwise (fun a b : Departure => depLE a b = true)
          ((deps.filterMap (fun dep => parseDeparture dep now)).mergeSort depLE) := by
      apply List.sorted_mergeSort
      · intro a b c hab hbc
        simp only [depLE, decide_eq_true_iff] at *
        omega
      · intro a b
        simp only [depLE]
        by_cases h : a.expectedTime ≤ b.expectedTime
        · simp [h]
        · simp [h]
          omega
    refine ⟨?_, ?_, ?_⟩
    · have := List.Pairwise.sublist
        (List.take_sublist 30 _) hsorted
      apply List.Pairwise.imp _ this
      intro a b hab
      simpa [depLE] using hab
    · simp [parseDeparturesResponse, List.length_take]
    · intro d hd
      simp only [parseDeparturesResponse] at hd
      have hd' := (List.take_sublist 30 _).mem hd
      rw [List.mem_mergeSort] at hd'
      obtain ⟨raw, _, hps⟩ := List.mem_filterMap.mp hd'
      obtain ⟨s, _, _, _, _, hmin, _⟩ := parseDeparture_some_inv raw now d hps
      rw [hmin]
      exact le_max_left 0 _

/-- C4: the delay flag holds exactly when expected is more than
60000 ms after scheduled. -/
theorem departure_delay_iff (raw : RawDeparture) (now : Int) (d : Departure)
    (h : parseDeparture raw now = some d) :
    d.isDelayed = true ↔ d.expectedTime - d.scheduledTime > 60000 := by
  obtain ⟨s, _, _, _, _, _, hdel⟩ := parseDeparture_some_inv raw now d h
  rw [hdel]
  exact decide_eq_true_iff

/-- C9: absent expected time defaults to scheduled, and such a departure
is never flagged delayed. -/
theorem departure_expected_defaults (raw : RawDeparture) (now : Int)
    (d : Departure) (hexp : raw.expected = none)
    (h : parseDeparture raw now = some d) :
    d.expectedTime = d.scheduledTime ∧ d.isDelayed = false := by
  obtain ⟨s, _, hsched, hexpd, _, _, hdel⟩ := parseDeparture_some_inv raw now d h
  rw [hexp] at hexpd
  simp only [Option.getD_none] at hexpd
  have heq : d.expectedTime = d.scheduledTime := by rw [hexpd, hsched]
  refine ⟨heq, ?_⟩
  rw [hdel, heq]
  simp

/-! Section: The staleness cutoff (C3) -/

/-- C3 counterexample: a record whose expected time is 61000 ms before
`now` — more than one minute in the past — is NOT excluded: it appears
in the normalizer's output. -/
theorem stale_cutoff_counterexample :
    (0 : Int) - 61000 < -60000 ∧
      parseDeparturesResponse (some [staleRaw]) 61000 =
        [{ type := TransportKind.bus, line := "", destination := "",
           scheduledTime := 0, expectedTime := 0, minutesUntil := 0,
           isDelayed := false, platform := none, isCancelled := false }] := by
  constructor
  · decide
  · have h1 : parseDeparture staleRaw 61000 =
        some { type := TransportKind.bus, line := "", destination := "",
               scheduledTime := 0, expectedTime := 0, minutesUntil := 0,
               isDelayed := false, platform := none, isCancelled := false } := by
      decide
    simp [parseDeparturesResponse, h1, List.mergeSort_singleton]

/-- C3 amended: a record is excluded exactly when its resolved expected
time is more than 90000 ms before `now` (rounded minutes-until below
-1). -/
theorem stale_cutoff (raw : RawDeparture) (now s : Int)
    (hs : raw.scheduled = some s)
    (hstale : raw.expected.getD s - now < -90000) :
    parseDeparture raw now = none := by
  simp only [parseDeparture, hs]
  rw [if_pos]
  rw [jsRound, Int.fdiv_eq_ediv _ (by norm_num)]
  omega

theorem stale_cutoff_witness :
    parseDeparture { scheduled := some 0, expected := some (-100000) } 0 = none :=
  stale_cutoff { scheduled := some 0, expected := some (-100000) } 0 0 rfl
    (by decide)

/-! Section: Classifier refinement (C5) -/

/-- The if-chain of the source classifier agrees with the rule-table
reading of the specification, for any normalized string. -/
theorem classifier_chain_eq_rules (u : String) :
    (if strContains u "FOOTPATH" || strContains u "FOOT" || strContains u "WALK" then
       TransportKind.walk
     else if strContains u "TUNNELBANA" || strContains u "METRO" then .metro
     else if strContains u "PENDEL" || strContains u "TAG" || strContains u "TRAIN" then .train
     else if strContains u "SPARV" || strContains u "TRAM" then .tram
     else if strContains u "BAT" || strContains u "SHIP" || strContains u "FERRY" then .ship
     else if strContains u "BUS" then .bus
     else .bus) =
    (match specClassifierRules.find?
        (fun rule => rule.1.any (fun tok => strContains u tok)) with
     | some rule => rule.2
     | none => TransportKind.bus) := by
  by_cases h1 : (strContains u "FOOTPATH" || strContains u "FOOT" || strContains u "WALK") = true
  · rw [if_pos h1, specClassifierRules, List.find?_cons_of_pos _ (by simpa [Bool.or_assoc] using h1)]
  · rw [if_neg h1, specClassifierRules, List.find?_cons_of_neg _ (by simpa [Bool.or_assoc] using h1)]
    by_cases h2 : (strContains u "TUNNELBANA" || strContains u "METRO") = true
    · rw [if_pos h2, List.find?_cons_of_pos _ (by simpa [Bool.or_assoc] using h2)]
    · rw [if_neg h2, List.find?_cons_of_neg _ (by simpa [Bool.or_assoc] using h2)]
      by_cases h3 : (strContains u "PENDEL" || strContains u "TAG" || strContains u "TRAIN") = true
      · rw [if_pos h3, List.find?_cons_of_pos _ (by simpa [Bool.or_assoc] using h3)]
      · rw [if_neg h3, List.find?_cons_of_neg _ (by simpa [Bool.or_assoc] using h3)]
        by_cases h4 : (strContains u "SPARV" || strContains u "TRAM") = true
        · rw [if_pos h4, List.find?_cons_of_pos _ (by simpa [Bool.or_assoc] using h4)]
        · rw [if_neg h4, List.find?_cons_of_neg _ (by simpa [Bool.or_assoc] using h4)]
          by_cases h5 : (strContains u "BAT" || strContains u "SHIP" || strContains u "FERRY") = true
          · rw [if_pos h5, List.find?_cons_of_pos _ (by simpa [Bool.or_assoc] using h5)]
          · rw [if_neg h5, List.find?_cons_of_neg _ (by simpa [Bool.or_assoc] using h5)]
            by_cases h6 : strContains u "BUS" = true
            · rw [if_pos h6, List.find?_cons_of_pos _ (by simpa using h6)]
            · rw [if_neg h6, List.find?_cons_of_neg _ (by simpa using h6)]
              rfl

/-- C5: the classifier is the specification's priority-ordered rule
table (so it is total with default `bus`), and the empty string maps to
`bus`. -/
theorem classifier_total_priority (s : String) :
    mapTransportTypeV2 s = classifySpec s ∧
      mapTransportTypeV2 "" = TransportKind.bus :=
  ⟨classifier_chain_eq_rules (normalizeUpper s), by decide⟩

/-! Section: Stop-name resolver characterization (C6) -/

/-- Every string contains itself as a substring. -/
theorem strContains_self (s : String) : strContains s s = true := by
  rw [strContains]
  cases hd : s.data with
  | nil => simp [containsSub]
  | cons c cs =>
    rw [containsSub]
    have : List.isPrefixOf (c :: cs) (c :: cs) = true := by
      rw [ List.isPrefixOf_iff_prefix]
    simp [this]

/-- C6: behaviour of the stop-name resolver.  A purely numeric query
always resolves (exact id match from the list, else a synthesized
placeholder); a textual query is matched case-insensitively by
substring, preferring an exact name match, then the first prefix match,
then the first substring match, and fails only when no site name
contains the query. -/
theorem resolveStopQuery_characterization (sites : List TransportSite) (q : String) :
    (isNumericStr (trimStr q) = true →
      ((∃ s ∈ sites, s.id = trimStr q) →
        ∃ m, resolveStopQuery sites q = some m ∧ m ∈ sites ∧ m.id = trimStr q) ∧
      ((∀ s ∈ sites, s.id ≠ trimStr q) →
        resolveStopQuery sites q =
          some { id := trimStr q, name := trimStr q, coord := none, products := [] })) ∧
    (isNumericStr (trimStr q) = false →
      ((∀ s ∈ sites, strContains (lowerStr s.name) (lowerStr (trimStr q)) = false) →
        resolveStopQuery sites q = none) ∧
      ((∃ s ∈ sites, lowerStr s.name = lowerStr (trimStr q)) →
        ∃ m, resolveStopQuery sites q = some m ∧ m ∈ sites ∧
          lowerStr m.name = lowerStr (trimStr q)) ∧
      (sites.filter (fun s => strContains (lowerStr s.name) (lowerStr (trimStr q))) ≠ [] →
        (∀ s ∈ sites.filter (fun s => strContains (lowerStr s.name) (lowerStr (trimStr q))),
          lowerStr s.name ≠ lowerStr (trimStr q)) →
        resolveStopQuery sites q =
          (match (sites.filter (fun s => strContains (lowerStr s.name) (lowerStr (trimStr q)))).find?
              (fun s => (lowerStr (trimStr q)).data.isPrefixOf (lowerStr s.name).data) with
           | some pfx => some pfx
           | none =>
             (sites.filter (fun s =>
               strContains (lowerStr s.name) (lowerStr (trimStr q)))).head?))) := by
  constructor
  · intro hnum
    constructor
    · rintro ⟨s0, hs0, hid⟩
      have hsome : (sites.find? (fun site => site.id = trimStr q)).isSome := by
        rw [List.find?_isSome]
        exact ⟨s0, hs0, by simp [hid]⟩
      obtain ⟨m, hm⟩ := Option.isSome_iff_exists.mp hsome
      refine ⟨m, ?_, List.mem_of_find?_eq_some hm, ?_⟩
      · simp only [resolveStopQuery]
        rw [if_pos hnum, hm]
      · have := List.find?_some hm
        simpa using this
    · intro hnone
      have hfind : sites.find? (fun site => site.id = trimStr q) = none := by
        rw [List.find?_eq_none]
        intro s hs
        simp [hnone s hs]
      simp only [resolveStopQuery]
      rw [if_pos hnum, hfind]
  · intro hnum
    have hnum' : ¬ isNumericStr (trimStr q) = true := by simp [hnum]
    refine ⟨?_, ?_, ?_⟩
    · intro hnosub
      have hfilter :
          sites.filter (fun s => strContains (lowerStr s.name) (lowerStr (trimStr q))) = [] := by
        rw [List.filter_eq_nil_iff]
        intro s hs
        simp [hnosub s hs]
      simp only [resolveStopQuery]
      rw [if_neg hnum', if_pos hfilter]
    · rintro ⟨s0, hs0, hname⟩
      have hs0f : s0 ∈ sites.filter
          (fun s => strContains (lowerStr s.name) (lowerStr (trimStr q))) := by
        rw [List.mem_filter]
        exact ⟨hs0, by rw [hname]; exact strContains_self _⟩
      have hne :
          sites.filter (fun s => strContains (lowerStr s.name) (lowerStr (trimStr q))) ≠ [] := by
        intro hcon
        rw [hcon] at hs0f
        simp at hs0f
      have hsome : ((sites.filter
          (fun s => strContains (lowerStr s.name) (lowerStr (trimStr q)))).find?
          (fun site => lowerStr site.name = lowerStr (trimStr q))).isSome := by
        rw [List.find?_isSome]
        exact ⟨s0, hs0f, by simp [hname]⟩
      obtain ⟨m, hm⟩ := Option.isSome_iff_exists.mp hsome
      have hmmem := List.mem_of_find?_eq_some hm
      rw [List.mem_filter] at hmmem
      refine ⟨m, ?_, hmmem.1, by simpa using List.find?_some hm⟩
      simp only [resolveStopQuery]
      rw [if_neg hnum', if_neg hne, hm]
    · intro hne hnoexact
      have hfind : (sites.filter
          (fun s => strContains (lowerStr s.name) (lowerStr (trimStr q)))).find?
          (fun site => lowerStr site.name = lowerStr (trimStr q)) = none := by
        rw [List.find?_eq_none]
        intro s hs
        simp [hnoexact s hs]
      simp only [resolveStopQuery]
      rw [if_neg hnum', if_neg hne, hfind]

theorem resolveStopQuery_witness :
    resolveStopQuery [wSite] "9001" =
      some { id := "9001", name := "9001", coord := none, products := [] } :=
  ((resolveStopQuery_characterization [wSite] "9001").1 (by decide)).2 (by decide)

/-! Section: Origin resolution (C10) -/

/-- A string with non-blank trim is itself non-empty. -/
theorem ne_empty_of_trim_ne (v : String) (h : trimStr v ≠ "") : v ≠ "" :=
  fun hv => h (by rw [hv]; rfl)

/-- The truthiness test of the source collapses to the trimmed value
being non-blank. -/
theorem truthy_trim_iff (v : String) :
    (v ≠ "" ∧ trimStr v ≠ "") ↔ trimStr v ≠ "" := by
  constructor
  · exact fun h => h.2
  · intro h
    refine ⟨?_, h⟩
    intro hv
    subst hv
    exact h rfl

/-- C10: `resolveOrigin` returns the first non-blank value among the
CLI value, the environment variable and the config key, in that order,
trimmed; `none` when all are absent or blank. -/
theorem resolveOrigin_eq_firstNonBlank (c e g : Option String) :
    resolveOrigin c e g = firstNonBlank [c, e, g] := by
  cases c with
  | some v =>
    by_cases hv : trimStr v = ""
    · cases e with
      | some ev =>
        by_cases he : trimStr ev = ""
        · cases g with
          | some gv =>
            by_cases hg : trimStr gv = ""
            · simp [resolveOrigin, firstNonBlank, hv, he, hg, List.find?]
            · simp [resolveOrigin, firstNonBlank, truthy_trim_iff, hv, he, hg,
                ne_empty_of_trim_ne gv hg, List.find?]
          | none => simp [resolveOrigin, firstNonBlank, hv, he, List.find?]
        · simp [resolveOrigin, firstNonBlank, truthy_trim_iff, hv, he,
            ne_empty_of_trim_ne ev he, List.find?]
      | none =>
        cases g with
        | some gv =>
          by_cases hg : trimStr gv = ""
          · simp [resolveOrigin, firstNonBlank, hv, hg, List.find?]
          · simp [resolveOrigin, firstNonBlank, truthy_trim_iff, hv, hg,
              ne_empty_of_trim_ne gv hg, List.find?]
        | none => simp [resolveOrigin, firstNonBlank, hv, List.find?]
    · simp [resolveOrigin, firstNonBlank, truthy_trim_iff, hv,
        ne_empty_of_trim_ne v hv, List.find?]
  | none =>
    cases e with
    | some ev =>
      by_cases he : trimStr ev = ""
      · cases g with
        | some gv =>
          by_cases hg : trimStr gv = ""
          · simp [resolveOrigin, firstNonBlank, he, hg, List.find?]
          · simp [resolveOrigin, firstNonBlank, truthy_trim_iff, he, hg,
              ne_empty_of_trim_ne gv hg, List.find?]
        | none => simp [resolveOrigin, firstNonBlank, he, List.find?]
      · simp [resolveOrigin, firstNonBlank, truthy_trim_iff, he,
          ne_empty_of_trim_ne ev he, List.find?]
    | none =>
      cases g with
      | some gv =>
        by_cases hg : trimStr gv = ""
        · simp [resolveOrigin, firstNonBlank, hg, List.find?]
        · simp [resolveOrigin, firstNonBlank, truthy_trim_iff, hg,
            ne_empty_of_trim_ne gv hg, List.find?]
      | none => simp [resolveOrigin, firstNonBlank, List.find?]

theorem departure_delay_iff_witness :
    wDelayed.isDelayed = true ↔
      wDelayed.expectedTime - wDelayed.scheduledTime > 60000 :=
  departure_delay_iff wRawDelayed 0 wDelayed (by decide)

theorem departure_expected_defaults_witness :
    wNoExpected.expectedTime = wNoExpected.scheduledTime ∧
      wNoExpected.isDelayed = false :=
  departure_expected_defaults wRawNoExpected 0 wNoExpected rfl (by decide)
